import Mathlib

set_option maxRecDepth 100000

/-!
# Verification of the mini-git object store, tree codec and commit encoder

Shallow embedding of `src/main.go`.  Byte strings (Go `[]byte` and `string`
values) are modelled as `List Nat`, each element one byte.  File-system effects
are modelled explicitly: the object store is an association list from the
40-character hex address to the stored (decompressed) object bytes; zlib
compression and decompression are an inverse pair provided by the Go standard
library, so the model stores the decompressed stream directly.
-/

namespace MiniGit

/-! ## SHA-1 (`crypto/sha1`), on bytes modelled as `Nat` mod 2^32 words -/

/-- 2^32, the word modulus of SHA-1 arithmetic. -/
def w32 : Nat := 4294967296

/-- Rotate a 32-bit word (a `Nat` below 2^32) left by `s` bits. -/
def rotl (s x : Nat) : Nat := ((x <<< s) ||| (x >>> (32 - s))) % w32

/-- Big-endian bytes of the low `k * 8` bits of `n`, most significant first. -/
def toBytesBE (k n : Nat) : List Nat :=
  (List.range k).map (fun i => (n >>> (8 * (k - 1 - i))) % 256)

/-- Big-endian word value of a byte list. -/
def fromBytesBE (l : List Nat) : Nat := l.foldl (fun acc b => acc * 256 + b) 0

/-- SHA-1 padding: append 0x80, zero bytes to 56 mod 64, then the 64-bit
big-endian bit length of the original message. -/
def sha1pad (msg : List Nat) : List Nat :=
  let z := (120 - (msg.length + 1) % 64) % 64
  msg ++ [128] ++ List.replicate z 0 ++ toBytesBE 8 (8 * msg.length)

/-- The five-word SHA-1 state. -/
abbrev Sha1St := Nat × Nat × Nat × Nat × Nat

/-- Extend the 16-word schedule by `n` more words. -/
def extendW : Nat → List Nat → List Nat
  | 0, w => w
  | n + 1, w =>
      let t := rotl 1 ((w.getD (w.length - 3) 0) ^^^ (w.getD (w.length - 8) 0) ^^^
        (w.getD (w.length - 14) 0) ^^^ (w.getD (w.length - 16) 0))
      extendW n (w ++ [t])

/-- One SHA-1 round: round index `i`, schedule `w`, state `(a, b, c, d, e)`. -/
def sha1Round (w : List Nat) (st : Sha1St) (i : Nat) : Sha1St :=
  let (a, b, c, d, e) := st
  let f :=
    if i < 20 then (b &&& c) ||| ((b ^^^ 4294967295) &&& d)
    else if i < 40 then b ^^^ c ^^^ d
    else if i < 60 then (b &&& c) ||| (b &&& d) ||| (c &&& d)
    else b ^^^ c ^^^ d
  let k :=
    if i < 20 then 1518500249
    else if i < 40 then 1859775393
    else if i < 60 then 2400959708
    else 3395469782
  let temp := (rotl 5 a + f + e + k + w.getD i 0) % w32
  (temp, a, rotl 30 b, c, d)

/-- Process one 64-byte block, updating the running hash state. -/
def sha1Block (hs : Sha1St) (block : List Nat) : Sha1St :=
  let w16 := (List.range 16).map (fun i => fromBytesBE ((block.drop (4 * i)).take 4))
  let w := extendW 64 w16
  let (h0, h1, h2, h3, h4) := hs
  let (a, b, c, d, e) := (List.range 80).foldl (sha1Round w) (h0, h1, h2, h3, h4)
  ((h0 + a) % w32, (h1 + b) % w32, (h2 + c) % w32, (h3 + d) % w32, (h4 + e) % w32)

/-- Fold `n` 64-byte blocks of `data` into the state. -/
def sha1Loop : Nat → List Nat → Sha1St → Sha1St
  | 0, _, hs => hs
  | n + 1, data, hs => sha1Loop n (data.drop 64) (sha1Block hs (data.take 64))

/-- Serialize the final state as the 20 big-endian digest bytes. -/
def sha1Out (st : Sha1St) : List Nat :=
  toBytesBE 4 st.1 ++ toBytesBE 4 st.2.1 ++ toBytesBE 4 st.2.2.1 ++
    toBytesBE 4 st.2.2.2.1 ++ toBytesBE 4 st.2.2.2.2

/-- SHA-1 digest of a byte list: 20 bytes. -/
def sha1 (msg : List Nat) : List Nat :=
  let padded := sha1pad msg
  sha1Out (sha1Loop (padded.length / 64) padded
    (1732584193, 4023233417, 2562383102, 271733878, 3285377520))

/-! ## Hex and decimal rendering (`fmt.Sprintf` verbs `%x` and `%d`) -/

/-- ASCII code of the lowercase hex digit for `n < 16`. -/
def hexDigitChar (n : Nat) : Nat := if n < 10 then 48 + n else 87 + n

/-- Lowercase hex rendering of a byte list, two characters per byte (`%x`). -/
def hexEncode : List Nat → List Nat
  | [] => []
  | b :: rest => hexDigitChar (b / 16) :: hexDigitChar (b % 16) :: hexEncode rest

/-- Accumulator loop for decimal digits, least significant digit peeled first.
The first argument only bounds the iteration count so the recursion is
structural; it never runs out when it starts at the number itself, because the
value shrinks by a factor of ten per step while the bound shrinks by one. -/
def decDigitsAux : Nat → Nat → List Nat → List Nat
  | _, 0, acc => acc
  | 0, _ + 1, acc => acc
  | fuel + 1, n + 1, acc => decDigitsAux fuel ((n + 1) / 10) (((n + 1) % 10 + 48) :: acc)

/-- ASCII decimal rendering of a natural number (`%d`). -/
def decimalBytes (n : Nat) : List Nat := if n = 0 then [48] else decDigitsAux n n []

/-! ## Object store: `writeObject` and `readObject` -/

/-- The framed object bytes hashed and stored by `writeObject`:
`"<objectType> <len(content)>\u0000" ++ content` (source line 16-17). -/
def frame (objectType content : List Nat) : List Nat :=
  objectType ++ [32] ++ decimalBytes content.length ++ [0] ++ content

/-- The 40-character lowercase hex address returned by `writeObject`
(source lines 19-20): `sha1.Sum` of the framed bytes, rendered with `%x`. -/
def writeObject (objectType content : List Nat) : List Nat :=
  hexEncode (sha1 (frame objectType content))

/-- Byte codes of the literal `".git/objects/"`. -/
def dotGitObjects : List Nat := [46, 103, 105, 116, 47, 111, 98, 106, 101, 99, 116, 115, 47]

/-- The bucket directory path `".git/objects/" + hash[:2]` (source line 22). -/
def objectDir (hash : List Nat) : List Nat := dotGitObjects ++ hash.take 2

/-- The object file path `dir + "/" + hash[2:]` (source line 23). -/
def objectFile (hash : List Nat) : List Nat := objectDir hash ++ [47] ++ hash.drop 2

/-- The on-disk object store: an association list from the 40-character hex
address to the stored object's decompressed bytes (zlib compression and
decompression are an inverse pair, so the model keeps the decompressed
stream). -/
abbrev ObjectStore := List (List Nat × List Nat)

/-- File lookup by address; the most recent write for an address shadows
older ones, matching `O_TRUNC` overwriting. -/
def findStored : ObjectStore → List Nat → Option (List Nat)
  | [], _ => none
  | (a, d) :: rest, hash => if a = hash then some d else findStored rest hash

/-- `writeObject` with its file-system side effect: returns the hash and the
store extended with the framed bytes filed under that hash. -/
def storeOp (s : ObjectStore) (objectType content : List Nat) : List Nat × ObjectStore :=
  let hash := writeObject objectType content
  (hash, (hash, frame objectType content) :: s)

/-- Split a byte list at its first NUL byte (`bytes.IndexByte(data, 0)` plus
the two slicings on source lines 63-65).  `none` models the crash when no NUL
exists (`IndexByte` returns -1 and `data[:nullIndex]` panics). -/
def splitAtNul : List Nat → Option (List Nat × List Nat)
  | [] => none
  | b :: rest =>
      if b = 0 then some ([], rest)
      else (splitAtNul rest).map (fun q => (b :: q.1, q.2))

/-- `strings.Split(header, " ")[0]`: the prefix of `header` before its first
space (the whole of `header` when it has no space). -/
def firstField (header : List Nat) : List Nat := header.takeWhile (fun b => b != 32)

/-- `readObject` on the decompressed stream (source lines 63-68): split at the
first NUL into header and content, and parse the kind as the first
space-separated field of the header.  No other validation is performed. -/
def readObjectData (data : List Nat) : Option (List Nat × List Nat) :=
  (splitAtNul data).map (fun hc => (firstField hc.1, hc.2))

/-- `readObject` including the file lookup (source lines 49-56): fails when no
object is filed under the address, then decodes the stored stream. -/
def loadOp (s : ObjectStore) (hash : List Nat) : Option (List Nat × List Nat) :=
  match findStored s hash with
  | none => none
  | some data => readObjectData data

/-! ## Tree codec -/

/-- One tree entry: permission mode string, path name, raw child address
bytes. -/
structure TreeEntry where
  mode : List Nat
  name : List Nat
  addr : List Nat
deriving DecidableEq, Repr

/-- The encoded form of one entry (source lines 122-127):
`mode ++ " " ++ name ++ "\u0000" ++ rawAddressBytes`. -/
def serializeEntry (e : TreeEntry) : List Nat :=
  e.mode ++ [32] ++ e.name ++ [0] ++ e.addr

/-- A tree payload: the concatenation of the encoded entries in order
(the `entries` accumulator of `cmdWriteTree`). -/
def serializeTree (es : List TreeEntry) : List Nat := (es.map serializeEntry).flatten

/-- Split a byte list at its first space (`strings.SplitN(entry, " ", 2)`);
`none` models the crash when the entry has no space (`parts[1]` panics). -/
def splitFirstSpace : List Nat → Option (List Nat × List Nat)
  | [] => none
  | b :: rest =>
      if b = 32 then some ([], rest)
      else (splitFirstSpace rest).map (fun q => (b :: q.1, q.2))

/-- The decoding loop of `cmdLsTree` (source lines 146-157), recursion on the
unread suffix.  The fuel argument only bounds the iteration count; every
iteration consumes at least the NUL byte, so fuel equal to the payload length
is never exhausted.  Each record yields the pre-space field as mode, the
post-space field as name, and the next (up to) 20 bytes as the raw address;
the cursor then jumps 20 bytes ahead with no check that 20 bytes remain. -/
def deserializeTreeGo : Nat → List Nat → Option (List TreeEntry)
  | _, [] => some []
  | 0, _ :: _ => none
  | fuel + 1, content =>
      match splitAtNul content with
      | none => none
      | some (entry, rest) =>
          match splitFirstSpace entry with
          | none => none
          | some (mode, name) =>
              (deserializeTreeGo fuel (rest.drop 20)).map
                (fun es => ⟨mode, name, rest.take 20⟩ :: es)

/-- Tree payload decoding: the `cmdLsTree` loop run on the whole payload. -/
def deserializeTree (content : List Nat) : Option (List TreeEntry) :=
  deserializeTreeGo content.length content

/-! ## Commit encoder (`cmdCommitTree`) -/

/-- `strings.Join(args, " ")`. -/
def joinSpace : List (List Nat) → List Nat
  | [] => []
  | [a] => a
  | a :: b :: rest => a ++ 32 :: joinSpace (b :: rest)

/-- The commit payload built on source line 169:
`"tree " ++ treeHash ++ "\n\n" ++ message ++ "\n"`. -/
def commitContent (treeHash message : List Nat) : List Nat :=
  [116, 114, 101, 101, 32] ++ treeHash ++ [10, 10] ++ message ++ [10]

/-- `cmdCommitTree` up to the point where the payload is stored (source lines
161-169): reject short or mis-flagged argument lists, take the tree hash from
the first argument, join the remaining arguments with single spaces as the
message, and build the payload. -/
def cmdCommitTreeContent (args : List (List Nat)) : Option (List Nat) :=
  if 3 ≤ args.length ∧ args.getD 1 [] = [45, 109] then
    some (commitContent (args.getD 0 []) (joinSpace (args.drop 2)))
  else none

/-! ## Validity predicates -/

/-- A byte is a lowercase hexadecimal digit character. -/
def isLowerHexDigit (b : Nat) : Prop := (48 ≤ b ∧ b ≤ 57) ∨ (97 ≤ b ∧ b ≤ 102)

instance (b : Nat) : Decidable (isLowerHexDigit b) := by
  unfold isLowerHexDigit; infer_instance

/-- A valid permission mode string: six ASCII digit characters (the source
always uses `"100644"`). -/
def validMode (m : List Nat) : Prop := m.length = 6 ∧ ∀ b ∈ m, 48 ≤ b ∧ b ≤ 57

instance (m : List Nat) : Decidable (validMode m) := by
  unfold validMode; infer_instance

/-- A well-formed tree entry: valid mode, NUL-free name, and a 20-byte raw
child address. -/
def validEntry (e : TreeEntry) : Prop :=
  validMode e.mode ∧ 0 ∉ e.name ∧ e.addr.length = 20

instance (e : TreeEntry) : Decidable (validEntry e) := by
  unfold validEntry; infer_instance

/-! ## Helper lemmas -/

theorem decDigitsAux_mem (fuel n : Nat) (acc : List Nat) (b : Nat)
    (hb : b ∈ decDigitsAux fuel n acc) : b ∈ acc ∨ (48 ≤ b ∧ b ≤ 57) := by
  induction fuel, n, acc using decDigitsAux.induct with
  | case1 fuel acc => exact Or.inl (by simpa [decDigitsAux] using hb)
  | case2 acc => exact Or.inl (by simpa [decDigitsAux] using hb)
  | case3 fuel n acc ih =>
      rw [decDigitsAux] at hb
      rcases ih hb with h | h
      · rcases List.mem_cons.mp h with h | h
        · right; have := Nat.mod_lt (n + 1) (show 0 < 10 by omega); omega
        · exact Or.inl h
      · exact Or.inr h

theorem decimalBytes_digit {n b : Nat} (hb : b ∈ decimalBytes n) :
    48 ≤ b ∧ b ≤ 57 := by
  unfold decimalBytes at hb
  split at hb
  · simp at hb; omega
  · rcases decDigitsAux_mem n n [] b hb with h | h
    · simp at h
    · exact h

theorem splitAtNul_append (h t : List Nat) (hh : 0 ∉ h) :
    splitAtNul (h ++ 0 :: t) = some (h, t) := by
  induction h with
  | nil => simp [splitAtNul]
  | cons b rest ih =>
      have hb : b ≠ 0 := fun e => hh (by simp [e])
      have hrest : 0 ∉ rest := fun e => hh (by simp [e])
      simp [splitAtNul, hb, ih hrest]

theorem splitFirstSpace_append (m n : List Nat) (hm : 32 ∉ m) :
    splitFirstSpace (m ++ 32 :: n) = some (m, n) := by
  induction m with
  | nil => simp [splitFirstSpace]
  | cons b rest ih =>
      have hb : b ≠ 32 := fun e => hm (by simp [e])
      have hrest : 32 ∉ rest := fun e => hm (by simp [e])
      simp [splitFirstSpace, hb, ih hrest]

theorem firstField_append (k rest : List Nat) (hk : 32 ∉ k) :
    firstField (k ++ 32 :: rest) = k := by
  induction k with
  | nil => simp [firstField, List.takeWhile_cons]
  | cons b kt ih =>
      have hb : b ≠ 32 := fun e => hk (by simp [e])
      have hkt : 32 ∉ kt := fun e => hk (by simp [e])
      have := ih hkt
      simp_all [firstField, List.takeWhile_cons, hb]

/-- The central store/load fact: decoding the framed bytes of an object whose
kind has no space and no NUL recovers the kind and payload exactly. -/
theorem readObjectData_frame (k p : List Nat) (h32 : 32 ∉ k) (h0 : 0 ∉ k) :
    readObjectData (frame k p) = some (k, p) := by
  have hshape : frame k p = (k ++ 32 :: decimalBytes p.length) ++ 0 :: p := by
    simp [frame]
  have hnonul : 0 ∉ k ++ 32 :: decimalBytes p.length := by
    intro hmem
    rcases List.mem_append.mp hmem with h | h
    · exact h0 h
    · rcases List.mem_cons.mp h with h | h
      · omega
      · have := decimalBytes_digit h; omega
  rw [readObjectData, hshape, splitAtNul_append _ _ hnonul]
  simp [firstField_append _ _ h32]

theorem toBytesBE_length (k n : Nat) : (toBytesBE k n).length = k := by
  simp [toBytesBE]

theorem toBytesBE_mem {k n b : Nat} (hb : b ∈ toBytesBE k n) : b < 256 := by
  simp only [toBytesBE, List.mem_map, List.mem_range] at hb
  obtain ⟨i, _, rfl⟩ := hb
  exact Nat.mod_lt _ (by omega)

theorem sha1Out_length (st : Sha1St) : (sha1Out st).length = 20 := by
  simp [sha1Out, toBytesBE_length]

theorem sha1Out_mem {st : Sha1St} {b : Nat} (hb : b ∈ sha1Out st) : b < 256 := by
  simp only [sha1Out, List.mem_append] at hb
  rcases hb with ((((h | h) | h) | h) | h) <;> exact toBytesBE_mem h

theorem sha1_length (msg : List Nat) : (sha1 msg).length = 20 :=
  sha1Out_length _

theorem sha1_mem {msg : List Nat} {b : Nat} (hb : b ∈ sha1 msg) : b < 256 :=
  sha1Out_mem hb

theorem hexEncode_length (l : List Nat) : (hexEncode l).length = 2 * l.length := by
  induction l with
  | nil => simp [hexEncode]
  | cons b rest ih => simp [hexEncode, ih]; omega

theorem hexDigitChar_isLowerHex {n : Nat} (h : n < 16) :
    isLowerHexDigit (hexDigitChar n) := by
  unfold hexDigitChar isLowerHexDigit
  split <;> omega

theorem hexEncode_mem {l : List Nat} (hlt : ∀ x ∈ l, x < 256) :
    ∀ b ∈ hexEncode l, isLowerHexDigit b := by
  induction l with
  | nil => simp [hexEncode]
  | cons x rest ih =>
      intro b hb
      have hx : x < 256 := hlt x (by simp)
      rcases List.mem_cons.mp hb with rfl | hb
      · exact hexDigitChar_isLowerHex (by omega)
      · rcases List.mem_cons.mp hb with rfl | hb
        · exact hexDigitChar_isLowerHex (Nat.mod_lt _ (by omega))
        · exact ih (fun y hy => hlt y (by simp [hy])) b hb

theorem writeObject_length (k p : List Nat) : (writeObject k p).length = 40 := by
  rw [writeObject, hexEncode_length, sha1_length]

theorem writeObject_hex (k p : List Nat) :
    ∀ b ∈ writeObject k p, isLowerHexDigit b := by
  rw [writeObject]
  exact hexEncode_mem (fun x hx => sha1_mem hx)

/-! ## Tree decoding lemmas -/

theorem deserializeTreeGo_succ (fuel b : Nat) (l : List Nat) :
    deserializeTreeGo (fuel + 1) (b :: l) =
      match splitAtNul (b :: l) with
      | none => none
      | some (entry, rest) =>
          match splitFirstSpace entry with
          | none => none
          | some (mode, name) =>
              (deserializeTreeGo fuel (rest.drop 20)).map
                (fun es => ⟨mode, name, rest.take 20⟩ :: es) := rfl

theorem deserializeTreeGo_step (fuel : Nat) (content entry rest mode name : List Nat)
    (hc : content ≠ []) (h1 : splitAtNul content = some (entry, rest))
    (h2 : splitFirstSpace entry = some (mode, name)) :
    deserializeTreeGo (fuel + 1) content =
      (deserializeTreeGo fuel (rest.drop 20)).map
        (fun es => ⟨mode, name, rest.take 20⟩ :: es) := by
  cases content with
  | nil => exact absurd rfl hc
  | cons b l =>
      rw [deserializeTreeGo_succ, h1]
      simp only [h2]

theorem serializeEntry_length (e : TreeEntry) :
    (serializeEntry e).length = e.mode.length + e.name.length + e.addr.length + 2 := by
  simp [serializeEntry]; omega

/-- Decoding inverts encoding, fuel-generalized. -/
theorem deserializeTreeGo_serializeTree (es : List TreeEntry) (fuel : Nat)
    (hv : ∀ e ∈ es, validEntry e) (hf : (serializeTree es).length ≤ fuel) :
    deserializeTreeGo fuel (serializeTree es) = some es := by
  induction es generalizing fuel with
  | nil => cases fuel <;> simp [serializeTree, deserializeTreeGo]
  | cons e tail ih =>
      obtain ⟨⟨hm6, hmdigit⟩, hn0, ha20⟩ := hv e (by simp)
      have hm32 : 32 ∉ e.mode := fun h => by have := hmdigit 32 h; omega
      have hm0 : 0 ∉ e.mode := fun h => by have := hmdigit 0 h; omega
      have hshape : serializeTree (e :: tail) =
          (e.mode ++ 32 :: e.name) ++ 0 :: (e.addr ++ serializeTree tail) := by
        simp [serializeTree, serializeEntry]
      have hlen : 1 ≤ (serializeTree (e :: tail)).length := by
        rw [hshape]
        simp only [List.length_append, List.length_cons]
        omega
      cases fuel with
      | zero => omega
      | succ f =>
          have hsplit : splitAtNul (serializeTree (e :: tail)) =
              some (e.mode ++ 32 :: e.name, e.addr ++ serializeTree tail) := by
            rw [hshape]
            refine splitAtNul_append _ _ ?_
            intro h
            rcases List.mem_append.mp h with h | h
            · exact hm0 h
            · rcases List.mem_cons.mp h with h | h
              · omega
              · exact hn0 h
          have hspace : splitFirstSpace (e.mode ++ 32 :: e.name) = some (e.mode, e.name) :=
            splitFirstSpace_append _ _ hm32
          have hne : serializeTree (e :: tail) ≠ [] := by
            rw [hshape]; simp
          rw [deserializeTreeGo_step f _ _ _ _ _ hne hsplit hspace]
          rw [List.take_left' ha20, List.drop_left' ha20]
          have htail : (serializeTree tail).length ≤ f := by
            have := congrArg List.length hshape
            simp at this
            omega
          rw [ih f (fun x hx => hv x (List.mem_cons_of_mem _ hx)) htail]
          rfl

/-- Tree round-trip at the top level. -/
theorem deserializeTree_serializeTree (es : List TreeEntry)
    (hv : ∀ e ∈ es, validEntry e) :
    deserializeTree (serializeTree es) = some es :=
  deserializeTreeGo_serializeTree es _ hv le_rfl

theorem splitAtNul_eq_none {d : List Nat} (hd : 0 ∉ d) : splitAtNul d = none := by
  induction d with
  | nil => rfl
  | cons b rest ih =>
      have hb : b ≠ 0 := fun e => hd (by simp [e])
      have hrest : 0 ∉ rest := fun e => hd (by simp [e])
      simp [splitAtNul, hb, ih hrest]

/-- Byte codes of the 40-character hex address the code computes for the
hello blob, `"ce013625030ba8dba906f756967f9e9ca394464a"`. -/
def helloBlobAddress : List Nat :=
  [99, 101, 48, 49, 51, 54, 50, 53, 48, 51, 48, 98, 97, 56, 100, 98, 97, 57, 48, 54,
   102, 55, 53, 54, 57, 54, 55, 102, 57, 101, 57, 99, 97, 51, 57, 52, 52, 54, 52, 97]

/-- Byte codes of the 39-character address string the spec claims for the
hello blob, `"ce013625030ba8dba906f756967f9e9ca394464"`. -/
def specHelloAddress : List Nat :=
  [99, 101, 48, 49, 51, 54, 50, 53, 48, 51, 48, 98, 97, 56, 100, 98, 97, 57, 48, 54,
   102, 55, 53, 54, 57, 54, 55, 102, 57, 101, 57, 99, 97, 51, 57, 52, 52, 54, 52]

/-! ## Claims -/

/-- Claim C1, counterexample: the round trip is not exact for every kind
string.  Storing kind `"a b"` (which contains a space) with payload `"h"` and
loading the returned address does not give back `("a b", "h")`: the kind read
back is only `"a"`. -/
theorem C1_counterexample :
    loadOp (storeOp [] [97, 32, 98] [104]).2 (storeOp [] [97, 32, 98] [104]).1 ≠
      some ([97, 32, 98], [104]) := by
  simp only [storeOp, loadOp, findStored, if_pos]
  decide

/-- Claim C1, amended: for every kind string containing no space and no NUL
byte and every payload byte sequence, loading the address returned by store
gives back exactly the stored kind and payload, byte for byte. -/
theorem C1_round_trip (s : ObjectStore) (k p : List Nat)
    (h32 : 32 ∉ k) (h0 : 0 ∉ k) :
    loadOp (storeOp s k p).2 (storeOp s k p).1 = some (k, p) := by
  simp only [storeOp, loadOp, findStored, if_pos]
  exact readObjectData_frame k p h32 h0

/-- Witness for C1: the round trip at kind `"blob"` and payload `"h\u0000i"`
(a payload containing a NUL byte). -/
theorem C1_round_trip_witness :
    loadOp (storeOp [] [98, 108, 111, 98] [104, 0, 105]).2
        (storeOp [] [98, 108, 111, 98] [104, 0, 105]).1 =
      some ([98, 108, 111, 98], [104, 0, 105]) :=
  C1_round_trip [] [98, 108, 111, 98] [104, 0, 105] (by decide) (by decide)

/-- Claim C2, counterexample: the address of the hello blob is not the
39-character string `"ce013625030ba8dba906f756967f9e9ca394464"` claimed by the
spec — every produced address has 40 characters. -/
theorem C2_counterexample :
    writeObject [98, 108, 111, 98] [104, 101, 108, 108, 111, 10] ≠ specHelloAddress := by
  intro h
  have hl := writeObject_length [98, 108, 111, 98] [104, 101, 108, 108, 111, 10]
  rw [h] at hl
  simp [specHelloAddress] at hl

/-- Claim C2, amended: storing the 6-byte payload `"hello\n"` with kind
`"blob"` yields the 40-character address
`"ce013625030ba8dba906f756967f9e9ca394464a"` (the SHA-1 of the framed bytes
`"blob 6\u0000hello\n"`), and loading that address returns
`("blob", "hello\n")`. -/
theorem C2_hello_blob :
    (storeOp [] [98, 108, 111, 98] [104, 101, 108, 108, 111, 10]).1 = helloBlobAddress ∧
    loadOp (storeOp [] [98, 108, 111, 98] [104, 101, 108, 108, 111, 10]).2
        helloBlobAddress =
      some ([98, 108, 111, 98], [104, 101, 108, 108, 111, 10]) := by
  constructor
  · decide
  · decide

/-- Claim C3: deserializing the serialization of any ordered entry sequence
with valid modes and names (and 20-byte raw child addresses) yields exactly
the same entries in the same order. -/
theorem C3_tree_round_trip (es : List TreeEntry) (hv : ∀ e ∈ es, validEntry e) :
    deserializeTree (serializeTree es) = some es :=
  deserializeTree_serializeTree es hv

/-- Witness for C3: the spec scenario with entries
`("100644", "a.txt", addrA)` and `("100644", "b.txt", addrB)`. -/
theorem C3_tree_round_trip_witness :
    deserializeTree (serializeTree
        [⟨[49, 48, 48, 54, 52, 52], [97, 46, 116, 120, 116], List.replicate 20 17⟩,
         ⟨[49, 48, 48, 54, 52, 52], [98, 46, 116, 120, 116], List.replicate 20 34⟩]) =
      some
        [⟨[49, 48, 48, 54, 52, 52], [97, 46, 116, 120, 116], List.replicate 20 17⟩,
         ⟨[49, 48, 48, 54, 52, 52], [98, 46, 116, 120, 116], List.replicate 20 34⟩] :=
  C3_tree_round_trip _ (by decide)

/-- Claim C4: the code does not reject a tree payload truncated after the NUL.
On the payload `"100644 a\u0000"` followed by only three address bytes the
decoder silently returns one entry carrying the three truncated bytes instead
of failing. -/
theorem C4_truncated_record_accepted :
    deserializeTree [49, 48, 48, 54, 52, 52, 32, 97, 0, 1, 2, 3] =
      some [⟨[49, 48, 48, 54, 52, 52], [97], [1, 2, 3]⟩] := by
  decide

/-- Claim C5, counterexample: at the 40-hex address `"000...0"` (forty `'0'`
characters) the stored stream `"g\u0000x"` has a NUL but its header `"g"` has
no space and no declared length, so by the claim the load should fail with
CorruptObject; the code instead returns kind `"g"` and payload `"x"`. -/
theorem C5_counterexample :
    loadOp [(List.replicate 40 48, [103, 0, 120])] (List.replicate 40 48) =
      some ([103], [120]) := by
  decide

/-- Claim C5, amended: for every 40-hex address, load fails when no object is
filed under the address and when the stored stream has no NUL separator; in
every other case it returns the first space-separated field of the header as
the kind and the bytes after the first NUL as the payload, with no further
validation of the declared kind/length framing.  The two hypotheses restrict
the statement to the claim's domain of 40-character lowercase hex
addresses. -/
theorem C5_load_behavior (s : ObjectStore) (a : List Nat)
    (_ha40 : a.length = 40) (_hahex : ∀ b ∈ a, isLowerHexDigit b) :
    (findStored s a = none → loadOp s a = none) ∧
    (∀ d, findStored s a = some d → 0 ∉ d → loadOp s a = none) ∧
    (∀ h c, findStored s a = some (h ++ 0 :: c) → 0 ∉ h →
      loadOp s a = some (firstField h, c)) := by
  refine ⟨fun hn => ?_, fun d hd h0 => ?_, fun h c hd h0 => ?_⟩
  · simp [loadOp, hn]
  · simp [loadOp, hd, readObjectData, splitAtNul_eq_none h0]
  · simp [loadOp, hd, readObjectData, splitAtNul_append h c h0]

/-- Witness for C5: a store holding the stream `"g 5\u0000x"` at the 40-hex
address `"000...0"`; loading returns kind `"g"` and payload `"x"`. -/
theorem C5_load_behavior_witness :
    loadOp [(List.replicate 40 48, [103, 32, 53, 0, 120])] (List.replicate 40 48) =
      some ([103], [120]) :=
  (C5_load_behavior [(List.replicate 40 48, [103, 32, 53, 0, 120])]
      (List.replicate 40 48) (by decide) (by decide)).2.2
    [103, 32, 53] [120] (by decide) (by decide)

/-- Claim C6: every produced address is exactly 40 lowercase hex characters;
the bucket directory is named by its first 2 characters and the entry file by
the remaining 38. -/
theorem C6_address_format (k p : List Nat) :
    (writeObject k p).length = 40 ∧
    (∀ b ∈ writeObject k p, isLowerHexDigit b) ∧
    ((writeObject k p).take 2).length = 2 ∧
    ((writeObject k p).drop 2).length = 38 ∧
    objectDir (writeObject k p) = dotGitObjects ++ (writeObject k p).take 2 ∧
    objectFile (writeObject k p) =
      dotGitObjects ++ (writeObject k p).take 2 ++ [47] ++ (writeObject k p).drop 2 := by
  refine ⟨writeObject_length k p, writeObject_hex k p, ?_, ?_, rfl, ?_⟩
  · simp [writeObject_length k p]
  · simp [writeObject_length k p]
  · simp [objectFile, objectDir, List.append_assoc]

/-- Claim C7: for every tree address and message, the commit builder produces
exactly `"tree " ++ t ++ "\n\n" ++ m ++ "\n"`, with no validation or
transformation of either argument. -/
theorem C7_commit_payload (t m : List Nat) :
    cmdCommitTreeContent [t, [45, 109], m] =
      some ([116, 114, 101, 101, 32] ++ t ++ [10, 10] ++ m ++ [10]) := by
  simp [cmdCommitTreeContent, commitContent, joinSpace]

/-- Claim C8: the address returned by store is the same across any two prior
store states (in particular across repeated calls in one instance and across
fresh instances), and is the pure function `writeObject` of kind and
payload. -/
theorem C8_deterministic_address (s1 s2 : ObjectStore) (k p : List Nat) :
    (storeOp s1 k p).1 = (storeOp s2 k p).1 ∧
    (storeOp (storeOp s1 k p).2 k p).1 = (storeOp s1 k p).1 ∧
    (storeOp s1 k p).1 = writeObject k p :=
  ⟨rfl, rfl, rfl⟩

/-- Claim C9: deserializing the empty tree payload returns the empty entry
sequence without failing. -/
theorem C9_empty_tree : deserializeTree [] = some [] := rfl

/-- Claim C10: store does not reject a kind containing a space.  Storing kind
`"a b"` with any payload succeeds, and loading the returned address yields as
kind only `"a"`, the prefix before the first space, which differs from
`"a b"`. -/
theorem C10_kind_with_space (s : ObjectStore) (p : List Nat) :
    loadOp (storeOp s [97, 32, 98] p).2 (storeOp s [97, 32, 98] p).1 =
      some ([97], p) ∧ ([97] : List Nat) ≠ [97, 32, 98] := by
  constructor
  · have hshape : frame [97, 32, 98] p =
        (97 :: 32 :: 98 :: 32 :: decimalBytes p.length) ++ 0 :: p := by
      simp [frame]
    have hnonul : 0 ∉ 97 :: 32 :: 98 :: 32 :: decimalBytes p.length := by
      intro h
      rcases List.mem_cons.mp h with h | h
      · omega
      rcases List.mem_cons.mp h with h | h
      · omega
      rcases List.mem_cons.mp h with h | h
      · omega
      rcases List.mem_cons.mp h with h | h
      · omega
      · have := decimalBytes_digit h; omega
    simp only [storeOp, loadOp, findStored, if_pos]
    rw [readObjectData, hshape, splitAtNul_append _ _ hnonul]
    simp [firstField, List.takeWhile_cons]
  · decide

end MiniGit
